import Mathlib

/-!
# SentinelaRF — verification of the scan-analyze-adapt control loop

Shallow embedding of the two near-duplicate implementations of the
autonomous RF analyzer (`src/app.py`, the web variant, and
`src/rf_analyzer.py`, the standalone variant) and proofs about the
claims of the natural-language specification.

Modelling conventions:
* CSV rows are lists of field strings (`List String`); the `csv.reader`
  tokenisation itself is not modelled, claims operate on rows and fields.
* Python `float()` / `int()` are modelled on their plain decimal subset
  (optional sign, digits, optional fraction); surrounding whitespace,
  underscores, exponents, `inf`/`nan` are outside the subset.  Power
  levels are exact rationals (`Rat`).
* The external sweep process, the HTTP endpoint, timestamps and the
  pseudo-random environment are inputs of each cycle (`CycleEnv`).
* `re.IGNORECASE` matching and `\b` / `\w` / `\d` character classes are
  modelled on their ASCII subset (`Char.toLower`, alphanumeric or `_`,
  ASCII digits), which covers every string the claims mention.
-/

namespace SentinelaRF

/-! ## Decimal parsing (`int()` / `float()` on their decimal subset) -/

/-- Numeric value of a list of decimal digit characters. -/
def digitsVal (cs : List Char) : Nat :=
  cs.foldl (fun a c => a * 10 + (c.toNat - 48)) 0

/-- Unsigned decimal integer: at least one digit, digits only
(the core of Python `int()`). -/
def parseDigits? (cs : List Char) : Option Nat :=
  if cs.isEmpty then none
  else if cs.all (·.isDigit) then some (digitsVal cs) else none

/-- Python `int(s)` on the plain decimal subset: optional sign and digits. -/
def parseInt? (s : String) : Option Int :=
  match s.data with
  | '-' :: rest => (parseDigits? rest).map (fun n => -(n : Int))
  | '+' :: rest => (parseDigits? rest).map (fun n => (n : Int))
  | cs => (parseDigits? cs).map (fun n => (n : Int))

/-- Unsigned decimal number with optional fraction: `digits [. digits]`,
at least one digit overall (the core of Python `float()`). -/
def parseFloatCore? (cs : List Char) : Option Rat :=
  let intPart := cs.takeWhile (·.isDigit)
  let rest := cs.dropWhile (·.isDigit)
  match rest with
  | [] => if intPart.isEmpty then none else some (digitsVal intPart : Rat)
  | '.' :: frac =>
      if frac.all (·.isDigit) && !(intPart.isEmpty && frac.isEmpty) then
        some ((digitsVal intPart : Rat) + (digitsVal frac : Rat) / (10 ^ frac.length : Nat))
      else none
  | _ => none

/-- Python `float(s)` on the plain decimal subset: optional sign,
digits, optional `.` and fraction digits. -/
def parseFloat? (s : String) : Option Rat :=
  match s.data with
  | '-' :: rest => (parseFloatCore? rest).map Neg.neg
  | '+' :: rest => parseFloatCore? rest
  | cs => parseFloatCore? cs

/-! ## Data model -/

/-- The mutable receiver configuration owned by the loop:
`self.lna_gain`, `self.vga_gain`, `self.amp_enabled`. -/
structure Config where
  lna_gain : Int
  vga_gain : Int
  amp_enabled : Bool
  deriving Repr, DecidableEq

/-- Initial configuration set in `RFAnalyzer.__init__`. -/
def initConfig : Config := { lna_gain := 16, vga_gain := 20, amp_enabled := false }

/-- The strongest-signal observation dictionary built in `run_scan`:
`{"frequency_mhz": …, "power_db": …, "bandwidth_hz": …}`. -/
structure SignalData where
  frequency_mhz : Rat
  power_db : Rat
  bandwidth_hz : Int
  deriving Repr, DecidableEq

/-! ## Field access on a sweep row

A sweep row is the list of comma-separated fields of one data line.
`row[i]` raising `IndexError` is modelled by `List.get?`. -/

/-- The power field `float(row[6])` of a row, when index 6 exists and
parses (failures were caught as `ValueError`/`IndexError`). -/
def rowPower (row : List String) : Option Rat :=
  (row.get? 6).bind parseFloat?

/-- The low edge frequency `int(row[2])` of a row. -/
def rowLo (row : List String) : Option Int :=
  (row.get? 2).bind parseInt?

/-- The high edge frequency `int(row[3])` of a row. -/
def rowHi (row : List String) : Option Int :=
  (row.get? 3).bind parseInt?

/-- The bin width `int(row[4])` of a row. -/
def rowBw (row : List String) : Option Int :=
  (row.get? 4).bind parseInt?

/-- The `SignalData` built from a row when all four numeric fields parse:
frequency is `(hz_low + hz_high) / 2 / 1_000_000` (true division). -/
def mkObs? (row : List String) (dbm : Rat) : Option SignalData :=
  match rowLo row, rowHi row, rowBw row with
  | some lo, some hi, some bw =>
      some { frequency_mhz := ((lo + hi : Int) : Rat) / 2 / 1000000
             power_db := dbm
             bandwidth_hz := bw }
  | _, _, _ => none

/-- A row all of whose accessed numeric fields parse (fields 2, 3, 4 as
integers and field 6 as a number). -/
def wellFormedRow (row : List String) : Bool :=
  (rowPower row).isSome && (rowLo row).isSome && (rowHi row).isSome && (rowBw row).isSome

/-! ## SignalSelector, standalone variant (`rf_analyzer.py`, lines 87-106)

```
strongest_signal = None
max_power = -999.0
for row in reader:
    try:
        dbm = float(row[6])
        if dbm > max_power:
            max_power = dbm
            hz_low = int(row[2]); hz_high = int(row[3]); bin_width = int(row[4])
            strongest_signal = {...}
    except (ValueError, IndexError):
        continue
```
Note `max_power` is updated before the `int()` conversions run, so a row
whose power parses but whose integer fields do not still raises the
running maximum. -/

/-- One iteration of the selection loop of `rf_analyzer.run_scan`. -/
def scanStep (acc : Option SignalData × Rat) (row : List String) :
    Option SignalData × Rat :=
  match rowPower row with
  | none => acc
  | some dbm =>
      if acc.2 < dbm then
        match mkObs? row dbm with
        | some obs => (some obs, dbm)
        | none => (acc.1, dbm)
      else acc

/-- The whole selection loop over the data rows (header already skipped),
starting from `strongest_signal = None`, `max_power = -999.0`. -/
def scanFold (rows : List (List String)) (acc : Option SignalData × Rat) :
    Option SignalData × Rat :=
  match rows with
  | [] => acc
  | row :: rest => scanFold rest (scanStep acc row)

/-- Function `selectStrongest` of the standalone variant: the strongest-signal
selection of `rf_analyzer.run_scan` applied to the data rows. -/
def selectStrongest (rows : List (List String)) : Option SignalData :=
  (scanFold rows (none, -999)).1

/-! ## SignalSelector, web variant (`app.py`, lines 90-108)

```
strongest_signal = max(
    (row for row in reader if len(row) > 6),
    key=lambda r: float(r[6]),
    default=None)
if strongest_signal:
    hz_low, hz_high, bin_width, dbm = int(...), int(...), int(...), float(...)
```
`float`/`int` failures here are *not* caught (the surrounding `try` only
catches `FileNotFoundError`), so they abort the whole loop thread;
`Except.error ()` models the escaping `ValueError`. -/

/-- One comparison step of Python `max(..., key=float(r[6]))`: the
candidate is replaced only when its key strictly exceeds the current
maximum, so the first row attaining the maximum wins. -/
def maxStep (acc : Option (List String)) (r : List String) : Option (List String) :=
  match acc with
  | none => some r
  | some b => if (rowPower b).getD 0 < (rowPower r).getD 0 then some r else acc

/-- Python `max(..., key=float(r[6]), default=None)` over the rows. -/
def maxRow (rows : List (List String)) : Option (List String) :=
  rows.foldl maxStep none

/-- Function `selectStrongest` of the web variant.  The `getD 0` in `maxRow` is
only reached when every candidate's power parses: an unparseable power
among the `len(row) > 6` candidates raises first. -/
def selectStrongest_app (rows : List (List String)) :
    Except Unit (Option SignalData) :=
  let candidates := rows.filter (fun r => 6 < r.length)
  if candidates.any (fun r => (rowPower r).isNone) then .error ()
  else
    match maxRow candidates with
    | none => .ok none
    | some best =>
        match rowPower best with
        | none => .error ()
        | some dbm =>
            match mkObs? best dbm with
            | some obs => .ok (some obs)
            | none => .error ()

/-! ## GainController (`adjust_settings`, both variants)

`re.search(r'LNA gain (\d+)', suggestions, re.IGNORECASE)`: scan the
text left to right; at the first position where the literal pattern
matches case-insensitively and is followed by at least one digit, the
greedy `(\d+)` captures the maximal digit run.  `int()` of a digit run
never fails, so the standalone variant's `try` around it is inert. -/

/-- Case-insensitive ASCII character comparison (`re.IGNORECASE`). -/
def charCI (a b : Char) : Bool := a.toLower == b.toLower

/-- Match a literal pattern case-insensitively against a prefix of the
text, returning the remaining text. -/
def matchCI : List Char → List Char → Option (List Char)
  | [], cs => some cs
  | _ :: _, [] => none
  | p :: ps, c :: cs => if charCI p c then matchCI ps cs else none

/-- Search `re.search` for `<pat>(\d+)`: first position where the literal
pattern matches (case-insensitively) followed by at least one digit;
the captured value is the maximal digit run, as a number. -/
def searchPatNum (pat : List Char) : List Char → Option Nat
  | [] => none
  | c :: rest =>
      match matchCI pat (c :: rest) with
      | some after =>
          let ds := after.takeWhile (·.isDigit)
          if ds.isEmpty then searchPatNum pat rest else some (digitsVal ds)
      | none => searchPatNum pat rest

/-- The literal part of `r'LNA gain (\d+)'`. -/
def lnaPat : List Char := "LNA gain ".data

/-- The literal part of `r'VGA gain (\d+)'`. -/
def vgaPat : List Char := "VGA gain ".data

/-- Method `RFAnalyzer.adjust_settings`: each matched gain value is clamped by
`max(0, min(value, bound))` and stored; an absent pattern leaves the
corresponding gain unchanged. -/
def adjust_settings (cfg : Config) (suggestions : String) : Config :=
  let cfg1 :=
    match searchPatNum lnaPat suggestions.data with
    | some n => { cfg with lna_gain := max 0 (min (n : Int) 40) }
    | none => cfg
  match searchPatNum vgaPat suggestions.data with
  | some n => { cfg1 with vga_gain := max 0 (min (n : Int) 62) }
  | none => cfg1

/-! ## ModulationExtractor (`_extract_modulation`, both variants)

`re.search(r'\b(FM|NFM|WFM|AM|SSB|LSB|USB|FSK|PSK|QAM)\b', d, re.IGNORECASE)`
followed by `match.group(1).upper()`.  `\w` is modelled as ASCII
alphanumeric or underscore; `\b` is the usual word/non-word boundary. -/

/-- A word character, `\w` (ASCII subset). -/
def isWordChar (c : Char) : Bool := c.isAlphanum || c == '_'

/-- The fixed alternation of modulation tokens, in pattern order. -/
def modTokens : List String :=
  ["FM", "NFM", "WFM", "AM", "SSB", "LSB", "USB", "FSK", "PSK", "QAM"]

/-- Boundary `\b` against the character left of the current position: satisfied
at the start of the text or after a non-word character (the token's
first character is always a word character). -/
def bOk : Option Char → Bool
  | none => true
  | some c => !isWordChar c

/-- The trailing `\b` after a matched token (whose last character is a
word character): end of text or a non-word character next. -/
def restBoundary : List Char → Bool
  | [] => true
  | c :: _ => !isWordChar c

/-- Try the alternation at the current position: the first token in
pattern order that matches case-insensitively and is followed by a word
boundary; returns the token's length. -/
def tokensAtGo : List String → List Char → Option Nat
  | [], _ => none
  | t :: ts, cs =>
      match matchCI t.data cs with
      | some after => if restBoundary after then some t.data.length else tokensAtGo ts cs
      | none => tokensAtGo ts cs

/-- The length of the token matched at the current position, if any. -/
def tokensAt (cs : List Char) : Option Nat := tokensAtGo modTokens cs

/-- Left-to-right scan of `re.search`, carrying the previously passed
character for the leading `\b` check. -/
def findTokenFrom (prev : Option Char) : List Char → Option (List Char)
  | [] => none
  | c :: rest =>
      if bOk prev then
        match tokensAt (c :: rest) with
        | some n => some (((c :: rest).take n).map Char.toUpper)
        | none => findTokenFrom (some c) rest
      else findTokenFrom (some c) rest

/-- Method `RFAnalyzer._extract_modulation`: the matched text upper-cased, or
`"Unknown"` when the pattern does not occur. -/
def extract_modulation (description : String) : String :=
  match findTokenFrom none description.data with
  | some t => String.mk t
  | none => "Unknown"

/-! ## AnalysisClient (`_query_ollama` / `analyze_with_ollama`)

The HTTP endpoint is an environment input.  A request either fails
(`requests.exceptions.RequestException`: connection error, timeout, or
`raise_for_status` on an HTTP error) or succeeds with a JSON body whose
optional `"response"` field is a string.  Prompt wording is
configuration (spec §4.3), so the prompt text itself carries no
algorithmic content; each prompt's outcome is a separate input. -/

/-- Outcome of one HTTP request to the language-model endpoint. -/
inductive HttpResult where
  /-- Outcome `RequestException`: transport failure, timeout, or HTTP error. -/
  | failure
  /-- HTTP success; the argument is the JSON body's `"response"` field,
  `none` when the field is absent. -/
  | success (response : Option String)
  deriving Repr, DecidableEq

/-- Method `RFAnalyzer._query_ollama`: on success
`response.json().get("response", "").strip()`, on failure `None`. -/
def query_ollama : HttpResult → Option String
  | .failure => none
  | .success response => some (response.getD "").trim

/-- Method `RFAnalyzer.analyze_with_ollama`: each half independently degrades
to its fixed fallback string when its request fails or yields a falsy
(empty) string.  The observation and current gains only enter the
prompt texts, which are configuration. -/
def analyze_with_ollama (descResult suggResult : HttpResult) : String × String :=
  let description :=
    match query_ollama descResult with
    | none => "Analysis failed."
    | some s => if s = "" then "Analysis failed." else s
  let suggestions :=
    match query_ollama suggResult with
    | none => "No suggestions."
    | some s => if s = "" then "No suggestions." else s
  (description, suggestions)

/-! ## SweepExecutor: command construction (`run_scan`, both variants) -/

/-- The `hackrf_sweep` command of the web variant (`app.py`, lines
71-76), including `-n` with the sample count. -/
def build_command_app (cfg : Config) : List String :=
  ["hackrf_sweep", "-f", "100:400",
   "-l", toString cfg.lna_gain, "-g", toString cfg.vga_gain,
   "-w", "100000", "-n", "131072"]
  ++ (if cfg.amp_enabled then ["-a"] else [])

/-- The `hackrf_sweep` command of the standalone variant
(`rf_analyzer.py`, lines 61-69); it has no `-n` parameter. -/
def build_command_rf (cfg : Config) : List String :=
  ["hackrf_sweep", "-f", "100:400",
   "-l", toString cfg.lna_gain, "-g", toString cfg.vga_gain,
   "-w", "100000"]
  ++ (if cfg.amp_enabled then ["-a"] else [])

/-! ## ScanLoop (`start_analysis_loop` / `start`)

One cycle's interactions with the outside world are inputs: the sweep
process outcome, the two language-model outcomes, and the timestamp. -/

/-- Outcome of invoking the external sweep process. -/
inductive SweepResult where
  /-- The executable is absent (`FileNotFoundError`). -/
  | toolMissing
  /-- Nonzero exit status with the given error text. -/
  | exitNonzero (stderr : String)
  /-- Exit status 0; the captured output as CSV-parsed lines
  (header line included). -/
  | output (lines : List (List String))
  deriving Repr

/-- Environment of one cycle. -/
structure CycleEnv where
  sweep : SweepResult
  descHttp : HttpResult
  suggHttp : HttpResult
  timestamp : String

/-- One row appended to `rf_scan_log.csv` by `log_data` (and, in the
web variant, emitted as a `new_signal` event).  The frequency is kept
as the exact value; the CSV renders it with three decimals. -/
structure LogRecord where
  timestamp : String
  frequency_mhz : Rat
  modulation : String
  lna_gain : Int
  vga_gain : Int
  amp_enabled : Bool
  description : String
  suggestions : String
  decoded : String
  deriving Repr, DecidableEq

/-- Method `RFAnalyzer.log_data`: the record reads the *current* gains
(`self.lna_gain`, `self.vga_gain`, `self.amp_enabled`) at call time. -/
def log_data (cfg : Config) (timestamp : String) (sig : SignalData)
    (description suggestions decoded modulation : String) : LogRecord :=
  { timestamp := timestamp
    frequency_mhz := sig.frequency_mhz
    modulation := modulation
    lna_gain := cfg.lna_gain
    vga_gain := cfg.vga_gain
    amp_enabled := cfg.amp_enabled
    description := description
    suggestions := suggestions
    decoded := decoded }

/-- Method `run_scan` of the standalone variant, given the sweep outcome:
`FileNotFoundError` and nonzero exit yield `None`; fewer than two
output lines yield `None`; otherwise the selection loop runs on the
lines after the header. -/
def rf_run_scan (res : SweepResult) : Option SignalData :=
  match res with
  | .toolMissing => none
  | .exitNonzero _ => none
  | .output lines => if lines.length < 2 then none else selectStrongest lines.tail

/-- Loop state of the standalone variant: the live configuration, the
appended log, and the sweep commands issued so far. -/
structure RfState where
  cfg : Config
  log : List LogRecord
  cmds : List (List String)
  deriving Repr

/-- One iteration of `rf_analyzer.RFAnalyzer.start`'s `while True`
body: scan, then — when a signal was found — analyze, extract, decode,
log, and only then adjust the settings. -/
def rf_cycle (env : CycleEnv) (s : RfState) : RfState :=
  let cmds' := s.cmds ++ [build_command_rf s.cfg]
  match rf_run_scan env.sweep with
  | none => { s with cmds := cmds' }
  | some sig =>
      let (description, suggestions) := analyze_with_ollama env.descHttp env.suggHttp
      let modulation := extract_modulation description
      let decoded := "DECODING_REQUIRES_SPECIFIC_TOOLING"
      let record := log_data s.cfg env.timestamp sig description suggestions decoded modulation
      let cfg' := adjust_settings s.cfg suggestions
      { cfg := cfg', log := s.log ++ [record], cmds := cmds' }

/-- The standalone `while True` loop, bounded by the list of cycle
environments (the tool never returns control otherwise). -/
def rf_loop : List CycleEnv → RfState → RfState
  | [], s => s
  | e :: es, s => rf_loop es (rf_cycle e s)

/-- Loop state of the web variant; `stopSet` is the shared
`threading.Event`. -/
structure AppState where
  cfg : Config
  stopSet : Bool
  log : List LogRecord
  cmds : List (List String)
  deriving Repr

/-- Method `run_scan` of the web variant: on `FileNotFoundError` it
additionally calls `self.stop_event.set()`; a `ValueError` escaping the
generator-based `max` is *not* caught and aborts the loop thread
(`Except.error`). -/
def app_run_scan (res : SweepResult) : Except Unit (Option SignalData × Bool) :=
  match res with
  | .toolMissing => .ok (none, true)
  | .exitNonzero _ => .ok (none, false)
  | .output lines =>
      if lines.length < 2 then .ok (none, false)
      else (selectStrongest_app lines.tail).map (fun sig? => (sig?, false))

/-- One iteration of `app.RFAnalyzer.start_analysis_loop`'s body. -/
def app_cycle (env : CycleEnv) (s : AppState) : Except Unit AppState :=
  let cmds' := s.cmds ++ [build_command_app s.cfg]
  match app_run_scan env.sweep with
  | .error e => .error e
  | .ok (sig?, setStop) =>
      let s := { s with cmds := cmds', stopSet := s.stopSet || setStop }
      match sig? with
      | none => .ok s
      | some sig =>
          let (description, suggestions) := analyze_with_ollama env.descHttp env.suggHttp
          let modulation := extract_modulation description
          let decoded := "DECODING_REQUIRES_SPECIFIC_TOOLING"
          let record := log_data s.cfg env.timestamp sig description suggestions decoded modulation
          let cfg' := adjust_settings s.cfg suggestions
          .ok { s with cfg := cfg', log := s.log ++ [record] }

/-- The web variant's loop: `while not self.stop_event.is_set()`; the
inter-cycle `stop_event.wait(10)` returns early once the event is set,
so the next condition check follows within one wait cycle. -/
def app_loop : List CycleEnv → AppState → Except Unit AppState
  | [], s => .ok s
  | e :: es, s => if s.stopSet then .ok s else (app_cycle e s).bind (app_loop es)

/-! ## Statement-support definitions

Decidable predicates and concrete inputs used by the theorem
statements below. -/

/-- Every row whose power field parses also has parseable integer
fields 2, 3, 4 (no row can poison the selection). -/
def rowsSane (rows : List (List String)) : Bool :=
  rows.all fun r => (rowPower r).isNone || wellFormedRow r

/-- A row whose power parses and lies above the `-999.0` sentinel of
the standalone selection loop. -/
def rowGood (r : List String) : Bool :=
  match rowPower r with
  | some p => decide (-999 < p)
  | none => false

/-- Every row with more than 6 fields has a parseable power field, so
the web variant's `max` key function never raises. -/
def rowsAppSafe (rows : List (List String)) : Bool :=
  rows.all fun r => decide (r.length ≤ 6) || (rowPower r).isSome

/-- Sweep data rows exhibiting the malformed-row slip: a valid row at
power −50, a row whose power −10 parses but whose `hz_low` field `"X"`
does not, and a valid row at power −20. -/
def failingRows : List (List String) :=
  [["2024-01-01", "00:00:00", "100000000", "100100000", "100000", "5", "-50"],
   ["2024-01-01", "00:00:00", "X", "200", "100", "5", "-10"],
   ["2024-01-01", "00:00:00", "200000000", "200100000", "100000", "5", "-20"]]

/-- Whole-word occurrence of a modulation token at position `i` of the
text: the leading `\b` holds against the character before `i` (or the
start of the text) and some token of the alternation matches at `i`
with its trailing `\b`. -/
def wwAtP (prev : Option Char) (cs : List Char) (i : Nat) : Bool :=
  bOk (match i with
       | 0 => prev
       | j + 1 => cs.get? j)
    && (tokensAt (cs.drop i)).isSome

/-- The source text matched at position `i` (before upper-casing). -/
def matchedTextAt (cs : List Char) (i : Nat) : List Char :=
  (cs.drop i).take ((tokensAt (cs.drop i)).getD 0)

/-- A cycle environment in which the sweep executable is absent. -/
def tmEnv : CycleEnv :=
  { sweep := .toolMissing, descHttp := .failure, suggHttp := .failure, timestamp := "t0" }

/-- A cycle environment whose sweep output holds a header line and one
valid data row, and whose language-model requests both fail. -/
def sigEnv : CycleEnv :=
  { sweep := .output
      [["header"],
       ["2024-01-01", "00:00:00", "100000000", "100100000", "100000", "131072", "-20.5"]]
    descHttp := .failure
    suggHttp := .failure
    timestamp := "t1" }

/-! # Theorems -/

/-- C4, counterexample: on the spec's own test input the VGA pattern
`VGA gain (\d+)` does not match `"VGA gain -3"` (a `-` is not a digit),
so the VGA gain stays at its previous value 20 instead of being clamped
to 0. -/
theorem adjust_settings_c4_counterexample :
    adjust_settings initConfig "New settings: LNA gain 55, VGA gain -3"
      = { lna_gain := 40, vga_gain := 20, amp_enabled := false }
    ∧ ({ lna_gain := 40, vga_gain := 20, amp_enabled := false } : Config).vga_gain ≠ 0 := by
  refine ⟨by with_unfolding_all rfl, by decide⟩

/-- C4, amended: `adjust_settings config "New settings: LNA gain 55,
VGA gain -3"` clamps the LNA gain to 40 and leaves the VGA gain
unchanged (the digit-only pattern cannot match `-3`); in general every
matched gain value is clamped into `[0, 40]` (LNA) respectively
`[0, 62]` (VGA) before being stored. -/
theorem adjust_settings_clamps :
    (∀ cfg : Config,
       adjust_settings cfg "New settings: LNA gain 55, VGA gain -3"
         = { cfg with lna_gain := 40 })
    ∧ (∀ (cfg : Config) (s : String) (n : Nat),
         searchPatNum lnaPat s.data = some n →
         (adjust_settings cfg s).lna_gain = max 0 (min (n : Int) 40))
    ∧ (∀ (cfg : Config) (s : String) (n : Nat),
         searchPatNum vgaPat s.data = some n →
         (adjust_settings cfg s).vga_gain = max 0 (min (n : Int) 62)) := by
  refine ⟨?_, ?_, ?_⟩
  · intro cfg
    have h1 : searchPatNum lnaPat ("New settings: LNA gain 55, VGA gain -3").data
        = some 55 := by with_unfolding_all rfl
    have h2 : searchPatNum vgaPat ("New settings: LNA gain 55, VGA gain -3").data
        = none := by with_unfolding_all rfl
    simp [adjust_settings, h1, h2]
  · intro cfg s n h
    cases hv : searchPatNum vgaPat s.data <;> simp [adjust_settings, h, hv]
  · intro cfg s n h
    cases hl : searchPatNum lnaPat s.data <;> simp [adjust_settings, h, hl]

/-- C4, witness: both clamping branches exercised at the value 100. -/
theorem adjust_settings_clamps_witness :
    (adjust_settings initConfig "LNA gain 100, VGA gain 100").lna_gain
        = max 0 (min (100 : Int) 40)
    ∧ (adjust_settings initConfig "LNA gain 100, VGA gain 100").vga_gain
        = max 0 (min (100 : Int) 62) :=
  ⟨adjust_settings_clamps.2.1 initConfig "LNA gain 100, VGA gain 100" 100
     (by with_unfolding_all rfl),
   adjust_settings_clamps.2.2 initConfig "LNA gain 100, VGA gain 100" 100
     (by with_unfolding_all rfl)⟩

/-- C8: a missing `LNA gain <digits>` (resp. `VGA gain <digits>`)
pattern leaves the corresponding gain unchanged, and `adjust_settings`
never modifies any field other than the two gains. -/
theorem adjust_settings_frame :
    ∀ (cfg : Config) (s : String),
      (searchPatNum lnaPat s.data = none →
        (adjust_settings cfg s).lna_gain = cfg.lna_gain)
      ∧ (searchPatNum vgaPat s.data = none →
        (adjust_settings cfg s).vga_gain = cfg.vga_gain)
      ∧ (adjust_settings cfg s).amp_enabled = cfg.amp_enabled := by
  intro cfg s
  cases hl : searchPatNum lnaPat s.data <;> cases hv : searchPatNum vgaPat s.data <;>
    simp [adjust_settings, hl, hv]

/-- C8, witness: a suggestion text containing neither pattern. -/
theorem adjust_settings_frame_witness :
    (adjust_settings initConfig "no gain suggestions").lna_gain = initConfig.lna_gain
    ∧ (adjust_settings initConfig "no gain suggestions").vga_gain = initConfig.vga_gain
    ∧ (adjust_settings initConfig "no gain suggestions").amp_enabled
        = initConfig.amp_enabled :=
  ⟨(adjust_settings_frame initConfig "no gain suggestions").1 (by with_unfolding_all rfl),
   (adjust_settings_frame initConfig "no gain suggestions").2.1 (by with_unfolding_all rfl),
   (adjust_settings_frame initConfig "no gain suggestions").2.2⟩

/-- C5: each half of the analysis depends only on its own request
outcome, a failed (or timed-out) description request degrades exactly
the description to `"Analysis failed."`, a failed suggestions request
degrades exactly the suggestions to `"No suggestions."`, and
`analyze_with_ollama` is total, so the cycle always receives a pair of
strings. -/
theorem analyze_with_ollama_isolated :
    ∀ (r₁ r₁' r₂ r₂' : HttpResult),
      (analyze_with_ollama r₁ r₂).1 = (analyze_with_ollama r₁ r₂').1
      ∧ (analyze_with_ollama r₁ r₂).2 = (analyze_with_ollama r₁' r₂).2
      ∧ (analyze_with_ollama .failure r₂).1 = "Analysis failed."
      ∧ (analyze_with_ollama r₁ .failure).2 = "No suggestions." := by
  intro r₁ r₁' r₂ r₂'
  exact ⟨rfl, rfl, rfl, rfl⟩

/-- C9: an HTTP-successful reply whose `"response"` field is missing,
empty, or whitespace-only is indistinguishable from a transport
failure: both halves fall back to the very same fixed strings. -/
theorem analyze_empty_response_fallback :
    ∀ (body : Option String) (r : HttpResult),
      (body.getD "").trim = "" →
      analyze_with_ollama (.success body) r = analyze_with_ollama .failure r
      ∧ analyze_with_ollama r (.success body) = analyze_with_ollama r .failure := by
  intro body r h
  constructor <;> simp [analyze_with_ollama, query_ollama, h]

/-- C9, witness: a whitespace-only successful reply. -/
theorem analyze_empty_response_fallback_witness :
    analyze_with_ollama (.success (some "   ")) .failure
        = analyze_with_ollama .failure .failure
    ∧ analyze_with_ollama .failure (.success (some "   "))
        = analyze_with_ollama .failure .failure :=
  analyze_empty_response_fallback (some "   ") .failure (by with_unfolding_all rfl)

/-- C6, counterexample: the standalone variant's sweep command carries
no sample-count parameter (`-n`), while the web variant's does. -/
theorem build_command_missing_samples :
    "-n" ∉ build_command_rf initConfig ∧ "-n" ∈ build_command_app initConfig := by
  constructor <;> decide

/-- C6, amended: the web variant's command carries exactly frequency
range, LNA gain, VGA gain, bin width, sample count, and the amplifier
flag appended if and only if the amplifier is enabled; the standalone
variant's command is identical except that it has no sample count. -/
theorem build_command_spec :
    ∀ cfg : Config,
      build_command_app cfg
        = ["hackrf_sweep", "-f", "100:400", "-l", toString cfg.lna_gain, "-g",
           toString cfg.vga_gain, "-w", "100000", "-n", "131072"]
          ++ (if cfg.amp_enabled then ["-a"] else [])
      ∧ build_command_rf cfg
        = ["hackrf_sweep", "-f", "100:400", "-l", toString cfg.lna_gain, "-g",
           toString cfg.vga_gain, "-w", "100000"]
          ++ (if cfg.amp_enabled then ["-a"] else [])
      ∧ ((build_command_app cfg).getLast? = some "-a" ↔ cfg.amp_enabled = true)
      ∧ ((build_command_rf cfg).getLast? = some "-a" ↔ cfg.amp_enabled = true) := by
  intro cfg
  refine ⟨rfl, rfl, ?_, ?_⟩ <;> cases h : cfg.amp_enabled <;>
    simp [build_command_app, build_command_rf, h]

/-- Once the stop event is set, the web loop's condition check fails
and no further cycle runs. -/
theorem app_loop_of_stopSet :
    ∀ (es : List CycleEnv) (s : AppState), s.stopSet = true → app_loop es s = .ok s
  | [], _, _ => rfl
  | _ :: _, _, h => by simp [app_loop, h]

/-- Every iteration of the standalone loop body issues exactly one
sweep command, whatever the environment does. -/
theorem rf_cycle_cmds (env : CycleEnv) (s : RfState) :
    (rf_cycle env s).cmds = s.cmds ++ [build_command_rf s.cfg] := by
  unfold rf_cycle
  rcases hA : analyze_with_ollama env.descHttp env.suggHttp with ⟨d, sg⟩
  cases hscan : rf_run_scan env.sweep <;> simp [hscan, hA]

/-- C3, counterexample: with the sweep executable absent in every
cycle, the standalone loop (`rf_analyzer.py`) issues a second sweep
command in its second cycle — the `FileNotFoundError` handler there
only prints and returns `None`, so the loop neither terminates nor
stops invoking the sweep. -/
theorem rf_loop_keeps_sweeping :
    (rf_loop [tmEnv, tmEnv] { cfg := initConfig, log := [], cmds := [] }).cmds.length = 2
    ∧ (2 : Nat) ≠ 1 := by
  refine ⟨by with_unfolding_all rfl, by decide⟩

/-- C3, amended: in the web variant (`app.py`) the claim holds — the
first tool-missing cycle sets the stop event, no record is logged, one
sweep invocation happened, and the loop exits at the next condition
check whatever environments follow.  In the standalone variant the
failure is non-fatal: the loop issues one sweep invocation per cycle
indefinitely. -/
theorem tool_unavailable_stops :
    (∀ (e : CycleEnv) (es : List CycleEnv) (cfg : Config) (log : List LogRecord)
        (cmds : List (List String)),
       e.sweep = .toolMissing →
       app_loop (e :: es) { cfg := cfg, stopSet := false, log := log, cmds := cmds }
         = .ok { cfg := cfg, stopSet := true, log := log,
                 cmds := cmds ++ [build_command_app cfg] })
    ∧ (∀ (es : List CycleEnv) (s : RfState),
        (rf_loop es s).cmds.length = s.cmds.length + es.length) := by
  constructor
  · intro e es cfg log cmds h
    have hcyc : app_cycle e { cfg := cfg, stopSet := false, log := log, cmds := cmds }
        = .ok { cfg := cfg, stopSet := true, log := log,
                cmds := cmds ++ [build_command_app cfg] } := by
      simp [app_cycle, app_run_scan, h]
    simp only [app_loop, Bool.false_eq_true, if_false, hcyc]
    exact app_loop_of_stopSet es _ rfl
  · intro es
    induction es with
    | nil => intro s; simp [rf_loop]
    | cons e es ih =>
        intro s
        rw [rf_loop, ih, rf_cycle_cmds]
        simp
        omega

/-- C3, witness: one tool-missing environment stops the web loop after
a single sweep invocation; two of them drive the standalone loop to two
invocations. -/
theorem tool_unavailable_stops_witness :
    app_loop [tmEnv] { cfg := initConfig, stopSet := false, log := [], cmds := [] }
      = .ok { cfg := initConfig, stopSet := true, log := [],
              cmds := [build_command_app initConfig] }
    ∧ (rf_loop [tmEnv, tmEnv] { cfg := initConfig, log := [], cmds := [] }).cmds.length
        = 2 :=
  ⟨tool_unavailable_stops.1 tmEnv [] initConfig [] [] rfl,
   tool_unavailable_stops.2 [tmEnv, tmEnv] { cfg := initConfig, log := [], cmds := [] }⟩

/-- C10: whenever a cycle appends a `LogRecord`, the record carries the
gains (and amplifier flag) the cycle's sweep ran with, and the
configuration afterwards is exactly `adjust_settings` of those gains by
the record's own suggestions text — adjustment happens only after
logging, so new gains first reach the *next* cycle's sweep command (the
second conjunct exhibits this for two standalone cycles); the web
variant's cycle behaves identically. -/
theorem log_records_preadjust_gains :
    (∀ (env : CycleEnv) (s : RfState),
       ((rf_cycle env s).log = s.log ∧ (rf_cycle env s).cfg = s.cfg)
       ∨ (∃ r : LogRecord,
            (rf_cycle env s).log = s.log ++ [r]
            ∧ r.lna_gain = s.cfg.lna_gain ∧ r.vga_gain = s.cfg.vga_gain
            ∧ r.amp_enabled = s.cfg.amp_enabled
            ∧ (rf_cycle env s).cfg = adjust_settings s.cfg r.suggestions))
    ∧ (∀ (e₁ e₂ : CycleEnv) (s : RfState),
        (rf_loop [e₁, e₂] s).cmds
          = s.cmds ++ [build_command_rf s.cfg, build_command_rf (rf_cycle e₁ s).cfg])
    ∧ (∀ (env : CycleEnv) (s s' : AppState),
        app_cycle env s = .ok s' →
        (s'.log = s.log ∧ s'.cfg = s.cfg)
        ∨ (∃ r : LogRecord,
             s'.log = s.log ++ [r]
             ∧ r.lna_gain = s.cfg.lna_gain ∧ r.vga_gain = s.cfg.vga_gain
             ∧ r.amp_enabled = s.cfg.amp_enabled
             ∧ s'.cfg = adjust_settings s.cfg r.suggestions)) := by
  refine ⟨?_, ?_, ?_⟩
  · intro env s
    rcases hA : analyze_with_ollama env.descHttp env.suggHttp with ⟨d, sg⟩
    cases hscan : rf_run_scan env.sweep with
    | none => exact Or.inl (by simp [rf_cycle, hscan])
    | some sig =>
        right
        refine ⟨log_data s.cfg env.timestamp sig d sg
          "DECODING_REQUIRES_SPECIFIC_TOOLING" (extract_modulation d), ?_⟩
        simp [rf_cycle, hscan, hA, log_data]
  · intro e₁ e₂ s
    show (rf_cycle e₂ (rf_cycle e₁ s)).cmds = _
    rw [rf_cycle_cmds, rf_cycle_cmds, List.append_assoc]
    rfl
  · intro env s s' h
    unfold app_cycle at h
    rcases hA : analyze_with_ollama env.descHttp env.suggHttp with ⟨d, sg⟩
    rcases happ : app_run_scan env.sweep with e | ⟨sig?, setStop⟩
    · rw [happ] at h; cases h
    · rw [happ] at h
      cases sig? with
      | none =>
          cases h
          exact Or.inl ⟨rfl, rfl⟩
      | some sig =>
          rw [hA] at h
          cases h
          right
          refine ⟨log_data s.cfg env.timestamp sig d sg
            "DECODING_REQUIRES_SPECIFIC_TOOLING" (extract_modulation d), ?_⟩
          simp [log_data]

/-- C10, witness: a tool-missing cycle of the web variant leaves log
and configuration untouched. -/
theorem log_records_preadjust_gains_witness :
    (({ cfg := initConfig, stopSet := true, log := [],
        cmds := [build_command_app initConfig] } : AppState).log
          = ({ cfg := initConfig, stopSet := false, log := [], cmds := [] } : AppState).log
      ∧ ({ cfg := initConfig, stopSet := true, log := [],
           cmds := [build_command_app initConfig] } : AppState).cfg
          = ({ cfg := initConfig, stopSet := false, log := [], cmds := [] } : AppState).cfg)
    ∨ (∃ r : LogRecord,
         ({ cfg := initConfig, stopSet := true, log := [],
            cmds := [build_command_app initConfig] } : AppState).log
             = ({ cfg := initConfig, stopSet := false, log := [],
                  cmds := [] } : AppState).log ++ [r]
         ∧ r.lna_gain
             = ({ cfg := initConfig, stopSet := false, log := [],
                  cmds := [] } : AppState).cfg.lna_gain
         ∧ r.vga_gain
             = ({ cfg := initConfig, stopSet := false, log := [],
                  cmds := [] } : AppState).cfg.vga_gain
         ∧ r.amp_enabled
             = ({ cfg := initConfig, stopSet := false, log := [],
                  cmds := [] } : AppState).cfg.amp_enabled
         ∧ ({ cfg := initConfig, stopSet := true, log := [],
              cmds := [build_command_app initConfig] } : AppState).cfg
             = adjust_settings
                 ({ cfg := initConfig, stopSet := false, log := [],
                    cmds := [] } : AppState).cfg r.suggestions) :=
  log_records_preadjust_gains.2.2 tmEnv
    { cfg := initConfig, stopSet := false, log := [], cmds := [] }
    { cfg := initConfig, stopSet := true, log := [],
      cmds := [build_command_app initConfig] }
    (by with_unfolding_all rfl)

/-- C2: the failing input.  The malformed middle row's power −10
parses, raising the standalone loop's running maximum before its `"X"`
field fails `int()`; the trailing valid row at −20 (the strongest valid
row) therefore never wins and the stale −50 row is returned.  On the
same input the web variant's uncaught `ValueError` aborts the loop
thread instead of skipping the row. -/
theorem malformed_row_poisons_selection :
    selectStrongest failingRows
      = some { frequency_mhz := 2001 / 20, power_db := -50, bandwidth_hz := 100000 }
    ∧ selectStrongest_app failingRows = .error ()
    ∧ wellFormedRow (failingRows.getD 2 []) = true
    ∧ rowPower (failingRows.getD 2 []) = some (-20)
    ∧ ((-50 : Rat) < -20) := by
  refine ⟨by with_unfolding_all rfl, by with_unfolding_all rfl, by with_unfolding_all rfl,
    by with_unfolding_all rfl, by norm_num⟩

/-- C1, counterexample: a single data row with 7 fields and parseable
power −10 — well-formed in the claim's sense — yet `selectStrongest`
returns no observation at all, because the row's `hz_low` field `"X"`
fails `int()` after the power has already been accepted. -/
theorem selectStrongest_c1_counterexample :
    (["2024-01-01", "00:00:00", "X", "200", "100", "5", "-10"] : List String).length = 7
    ∧ rowPower ["2024-01-01", "00:00:00", "X", "200", "100", "5", "-10"] = some (-10)
    ∧ selectStrongest [["2024-01-01", "00:00:00", "X", "200", "100", "5", "-10"]] = none := by
  refine ⟨by decide, by with_unfolding_all rfl, by with_unfolding_all rfl⟩

/-- A row all of whose fields parse yields an observation for any
power value. -/
theorem mkObs_isSome (row : List String) (q : Rat) (h : wellFormedRow row = true) :
    (mkObs? row q).isSome = true := by
  unfold wellFormedRow at h
  obtain ⟨⟨⟨-, hlo⟩, hhi⟩, hbw⟩ := by simpa [Bool.and_eq_true] using h
  obtain ⟨lo, hlo⟩ := Option.isSome_iff_exists.mp hlo
  obtain ⟨hi, hhi⟩ := Option.isSome_iff_exists.mp hhi
  obtain ⟨bw, hbw⟩ := Option.isSome_iff_exists.mp hbw
  simp [mkObs?, hlo, hhi, hbw]

/-- A row with a parseable power field has more than 6 fields. -/
theorem rowPower_length {row : List String} {q : Rat} (h : rowPower row = some q) :
    6 < row.length := by
  unfold rowPower at h
  cases hg : row.get? 6 with
  | none => rw [hg] at h; cases h
  | some f =>
      have := List.get?_eq_some.mp hg
      exact this.1

/-- If no row's power exceeds the running maximum, the standalone
selection loop changes nothing. -/
theorem scanFold_noUpdate :
    ∀ (rows : List (List String)) (b₀ : Option SignalData) (m₀ : Rat),
      (∀ r ∈ rows, ∀ q, rowPower r = some q → q ≤ m₀) →
      scanFold rows (b₀, m₀) = (b₀, m₀) := by
  intro rows
  induction rows with
  | nil => intro b₀ m₀ _; rfl
  | cons a rest ih =>
      intro b₀ m₀ hle
      have hstep : scanStep (b₀, m₀) a = (b₀, m₀) := by
        unfold scanStep
        cases hpa : rowPower a with
        | none => rfl
        | some qa =>
            have : qa ≤ m₀ := hle a (by simp) qa hpa
            simp [not_lt_of_le this]
      rw [scanFold, hstep]
      exact ih b₀ m₀ (fun r hr q hq => hle r (by simp [hr]) q hq)

/-- Characterization of the standalone selection loop from any
accumulator: if no row can poison the maximum (every row whose power
parses is fully well-formed) and some row strictly exceeds the running
maximum, the loop ends on the observation of the first row attaining
the overall maximal power. -/
theorem scanFold_spec :
    ∀ (rows : List (List String)) (b₀ : Option SignalData) (m₀ : Rat),
      (∀ r ∈ rows, (rowPower r).isSome = true → wellFormedRow r = true) →
      (∃ r ∈ rows, ∃ q, rowPower r = some q ∧ m₀ < q) →
      ∃ pre row suf p,
        rows = pre ++ row :: suf
        ∧ rowPower row = some p ∧ m₀ < p
        ∧ wellFormedRow row = true
        ∧ scanFold rows (b₀, m₀) = (mkObs? row p, p)
        ∧ (∀ r ∈ pre, ∀ q, rowPower r = some q → q < p)
        ∧ (∀ r ∈ rows, ∀ q, rowPower r = some q → q ≤ p) := by
  intro rows
  induction rows with
  | nil =>
      intro b₀ m₀ _ hex
      obtain ⟨r, hr, -⟩ := hex
      cases hr
  | cons a rest ih =>
      intro b₀ m₀ hsane hex
      have hsane' : ∀ r ∈ rest, (rowPower r).isSome = true → wellFormedRow r = true :=
        fun r hr => hsane r (by simp [hr])
      cases hpa : rowPower a with
      | none =>
          -- the head row is skipped entirely
          have hexr : ∃ r ∈ rest, ∃ q, rowPower r = some q ∧ m₀ < q := by
            obtain ⟨r, hr, q, hq, hlt⟩ := hex
            rcases List.mem_cons.mp hr with rfl | hr'
            · rw [hpa] at hq; cases hq
            · exact ⟨r, hr', q, hq, hlt⟩
          obtain ⟨pre, row, suf, p, hsplit, hpow, hmp, hwf, hfold, hpre, hall⟩ :=
            ih b₀ m₀ hsane' hexr
          have hstep : scanStep (b₀, m₀) a = (b₀, m₀) := by
            unfold scanStep; rw [hpa]
          refine ⟨a :: pre, row, suf, p, by rw [hsplit, List.cons_append], hpow, hmp, hwf,
            ?_, ?_, ?_⟩
          · rw [scanFold, hstep]; exact hfold
          · intro r hr q hq
            rcases List.mem_cons.mp hr with rfl | hr'
            · rw [hpa] at hq; cases hq
            · exact hpre r hr' q hq
          · intro r hr q hq
            rcases List.mem_cons.mp hr with rfl | hr'
            · rw [hpa] at hq; cases hq
            · exact hall r (hsplit ▸ hr') q hq
      | some qa =>
          by_cases hlt : m₀ < qa
          · -- the head row updates the running maximum
            have hwa : wellFormedRow a = true := hsane a (by simp) (by rw [hpa]; rfl)
            have hstep : scanStep (b₀, m₀) a = (mkObs? a qa, qa) := by
              unfold scanStep; rw [hpa]
              simp only [hlt, if_true]
              cases hm : mkObs? a qa with
              | none =>
                  have hs := mkObs_isSome a qa hwa
                  rw [hm] at hs
                  simp at hs
              | some obs => rfl
            by_cases hex2 : ∃ r ∈ rest, ∃ q, rowPower r = some q ∧ qa < q
            · obtain ⟨pre, row, suf, p, hsplit, hpow, hqp, hwf, hfold, hpre, hall⟩ :=
                ih (mkObs? a qa) qa hsane' hex2
              refine ⟨a :: pre, row, suf, p, by rw [hsplit, List.cons_append], hpow,
                lt_trans hlt hqp, hwf, ?_, ?_, ?_⟩
              · rw [scanFold, hstep]; exact hfold
              · intro r hr q hq
                rcases List.mem_cons.mp hr with rfl | hr'
                · rw [hpa] at hq; injection hq with h; exact h ▸ hqp
                · exact hpre r hr' q hq
              · intro r hr q hq
                rcases List.mem_cons.mp hr with rfl | hr'
                · rw [hpa] at hq; injection hq with h; exact h ▸ le_of_lt hqp
                · exact hall r (hsplit ▸ hr') q hq
            · -- nothing in the tail exceeds the head's power
              push_neg at hex2
              have hle : ∀ r ∈ rest, ∀ q, rowPower r = some q → q ≤ qa :=
                fun r hr q hq => hex2 r hr q hq
              refine ⟨[], a, rest, qa, rfl, hpa, hlt, hwa, ?_, ?_, ?_⟩
              · rw [scanFold, hstep]
                exact scanFold_noUpdate rest (mkObs? a qa) qa hle
              · intro r hr; cases hr
              · intro r hr q hq
                rcases List.mem_cons.mp hr with rfl | hr'
                · rw [hpa] at hq; injection hq with h; exact h ▸ le_refl qa
                · exact hle r hr' q hq
          · -- the head row does not exceed the running maximum
            have hqa_le : qa ≤ m₀ := not_lt.mp hlt
            have hexr : ∃ r ∈ rest, ∃ q, rowPower r = some q ∧ m₀ < q := by
              obtain ⟨r, hr, q, hq, hltq⟩ := hex
              rcases List.mem_cons.mp hr with rfl | hr'
              · rw [hpa] at hq; injection hq with h
                exact absurd (h ▸ hltq) hlt
              · exact ⟨r, hr', q, hq, hltq⟩
            obtain ⟨pre, row, suf, p, hsplit, hpow, hmp, hwf, hfold, hpre, hall⟩ :=
              ih b₀ m₀ hsane' hexr
            have hstep : scanStep (b₀, m₀) a = (b₀, m₀) := by
              unfold scanStep; rw [hpa]
              simp [hlt]
            refine ⟨a :: pre, row, suf, p, by rw [hsplit, List.cons_append], hpow, hmp, hwf,
              ?_, ?_, ?_⟩
            · rw [scanFold, hstep]; exact hfold
            · intro r hr q hq
              rcases List.mem_cons.mp hr with rfl | hr'
              · rw [hpa] at hq; injection hq with h
                exact h ▸ lt_of_le_of_lt hqa_le hmp
              · exact hpre r hr' q hq
            · intro r hr q hq
              rcases List.mem_cons.mp hr with rfl | hr'
              · rw [hpa] at hq; injection hq with h
                exact h ▸ le_of_lt (lt_of_le_of_lt hqa_le hmp)
              · exact hall r (hsplit ▸ hr') q hq

/-- If no row's key exceeds the current candidate's, Python `max`
keeps the candidate. -/
theorem maxFold_noUpdate :
    ∀ (l : List (List String)) (b₀ : List String) (p₀ : Rat),
      rowPower b₀ = some p₀ →
      (∀ r ∈ l, ∀ q, rowPower r = some q → q ≤ p₀) →
      (∀ r ∈ l, (rowPower r).isSome = true) →
      List.foldl maxStep (some b₀) l = some b₀ := by
  intro l
  induction l with
  | nil => intro b₀ p₀ _ _ _; rfl
  | cons a rest ih =>
      intro b₀ p₀ hb hle hsome
      obtain ⟨qa, hqa⟩ := Option.isSome_iff_exists.mp (hsome a (by simp))
      have hstep : maxStep (some b₀) a = some b₀ := by
        show (if (rowPower b₀).getD 0 < (rowPower a).getD 0 then some a else some b₀)
          = some b₀
        rw [hb, hqa]
        simp [not_lt_of_le (hle a (by simp) qa hqa)]
      rw [List.foldl_cons, hstep]
      exact ih b₀ p₀ hb (fun r hr q hq => hle r (by simp [hr]) q hq)
        (fun r hr => hsome r (by simp [hr]))

/-- Characterization of Python `max` from a current candidate: when
every key parses and some row strictly exceeds the candidate, the
result is the first row attaining the maximal key. -/
theorem maxFold_spec :
    ∀ (l : List (List String)) (b₀ : List String) (p₀ : Rat),
      (∀ r ∈ l, (rowPower r).isSome = true) →
      rowPower b₀ = some p₀ →
      (∃ r ∈ l, ∃ q, rowPower r = some q ∧ p₀ < q) →
      ∃ pre row suf p,
        l = pre ++ row :: suf
        ∧ rowPower row = some p ∧ p₀ < p
        ∧ List.foldl maxStep (some b₀) l = some row
        ∧ (∀ r ∈ pre, ∀ q, rowPower r = some q → q < p)
        ∧ (∀ r ∈ l, ∀ q, rowPower r = some q → q ≤ p) := by
  intro l
  induction l with
  | nil =>
      intro b₀ p₀ _ _ hex
      obtain ⟨r, hr, -⟩ := hex
      cases hr
  | cons a rest ih =>
      intro b₀ p₀ hsome hb hex
      have hsome' : ∀ r ∈ rest, (rowPower r).isSome = true :=
        fun r hr => hsome r (by simp [hr])
      obtain ⟨qa, hqa⟩ := Option.isSome_iff_exists.mp (hsome a (by simp))
      by_cases hlt : p₀ < qa
      · have hstep : maxStep (some b₀) a = some a := by
          show (if (rowPower b₀).getD 0 < (rowPower a).getD 0 then some a else some b₀)
            = some a
          rw [hb, hqa]
          simp [hlt]
        by_cases hex2 : ∃ r ∈ rest, ∃ q, rowPower r = some q ∧ qa < q
        · obtain ⟨pre, row, suf, p, hsplit, hpow, hqp, hfold, hpre, hall⟩ :=
            ih a qa hsome' hqa hex2
          refine ⟨a :: pre, row, suf, p, by rw [hsplit, List.cons_append], hpow,
            lt_trans hlt hqp, ?_, ?_, ?_⟩
          · rw [List.foldl_cons, hstep]; exact hfold
          · intro r hr q hq
            rcases List.mem_cons.mp hr with rfl | hr'
            · rw [hqa] at hq; injection hq with h; exact h ▸ hqp
            · exact hpre r hr' q hq
          · intro r hr q hq
            rcases List.mem_cons.mp hr with rfl | hr'
            · rw [hqa] at hq; injection hq with h; exact h ▸ le_of_lt hqp
            · exact hall r (hsplit ▸ hr') q hq
        · push_neg at hex2
          have hle : ∀ r ∈ rest, ∀ q, rowPower r = some q → q ≤ qa :=
            fun r hr q hq => hex2 r hr q hq
          refine ⟨[], a, rest, qa, rfl, hqa, hlt, ?_, ?_, ?_⟩
          · rw [List.foldl_cons, hstep]
            exact maxFold_noUpdate rest a qa hqa hle hsome'
          · intro r hr; cases hr
          · intro r hr q hq
            rcases List.mem_cons.mp hr with rfl | hr'
            · rw [hqa] at hq; injection hq with h; exact h ▸ le_refl qa
            · exact hle r hr' q hq
      · have hqa_le : qa ≤ p₀ := not_lt.mp hlt
        have hstep : maxStep (some b₀) a = some b₀ := by
          show (if (rowPower b₀).getD 0 < (rowPower a).getD 0 then some a else some b₀)
            = some b₀
          rw [hb, hqa]
          simp [hlt]
        have hexr : ∃ r ∈ rest, ∃ q, rowPower r = some q ∧ p₀ < q := by
          obtain ⟨r, hr, q, hq, hltq⟩ := hex
          rcases List.mem_cons.mp hr with rfl | hr'
          · rw [hqa] at hq; injection hq with h
            exact absurd (h ▸ hltq) hlt
          · exact ⟨r, hr', q, hq, hltq⟩
        obtain ⟨pre, row, suf, p, hsplit, hpow, hmp, hfold, hpre, hall⟩ :=
          ih b₀ p₀ hsome' hb hexr
        refine ⟨a :: pre, row, suf, p, by rw [hsplit, List.cons_append], hpow, hmp,
          ?_, ?_, ?_⟩
        · rw [List.foldl_cons, hstep]; exact hfold
        · intro r hr q hq
          rcases List.mem_cons.mp hr with rfl | hr'
          · rw [hqa] at hq; injection hq with h
            exact h ▸ lt_of_le_of_lt hqa_le hmp
          · exact hpre r hr' q hq
        · intro r hr q hq
          rcases List.mem_cons.mp hr with rfl | hr'
          · rw [hqa] at hq; injection hq with h
            exact h ▸ le_of_lt (lt_of_le_of_lt hqa_le hmp)
          · exact hall r (hsplit ▸ hr') q hq

/-- Characterization of `maxRow` on a nonempty list of rows whose keys
all parse: the first row attaining the maximal power wins. -/
theorem maxRow_spec :
    ∀ (l : List (List String)),
      (∀ r ∈ l, (rowPower r).isSome = true) →
      l ≠ [] →
      ∃ pre row suf p,
        l = pre ++ row :: suf
        ∧ rowPower row = some p
        ∧ maxRow l = some row
        ∧ (∀ r ∈ pre, ∀ q, rowPower r = some q → q < p)
        ∧ (∀ r ∈ l, ∀ q, rowPower r = some q → q ≤ p) := by
  intro l hsome hne
  cases l with
  | nil => exact absurd rfl hne
  | cons a rest =>
      have hsome' : ∀ r ∈ rest, (rowPower r).isSome = true :=
        fun r hr => hsome r (by simp [hr])
      obtain ⟨pa, hpa⟩ := Option.isSome_iff_exists.mp (hsome a (by simp))
      have hhead : maxRow (a :: rest) = List.foldl maxStep (some a) rest := by
        unfold maxRow
        rw [List.foldl_cons]
        rfl
      by_cases hex : ∃ r ∈ rest, ∃ q, rowPower r = some q ∧ pa < q
      · obtain ⟨pre, row, suf, p, hsplit, hpow, hqp, hfold, hpre, hall⟩ :=
          maxFold_spec rest a pa hsome' hpa hex
        refine ⟨a :: pre, row, suf, p, by rw [hsplit, List.cons_append], hpow,
          ?_, ?_, ?_⟩
        · rw [hhead]; exact hfold
        · intro r hr q hq
          rcases List.mem_cons.mp hr with rfl | hr'
          · rw [hpa] at hq; injection hq with h; exact h ▸ hqp
          · exact hpre r hr' q hq
        · intro r hr q hq
          rcases List.mem_cons.mp hr with rfl | hr'
          · rw [hpa] at hq; injection hq with h; exact h ▸ le_of_lt hqp
          · exact hall r (hsplit ▸ hr') q hq
      · push_neg at hex
        have hle : ∀ r ∈ rest, ∀ q, rowPower r = some q → q ≤ pa :=
          fun r hr q hq => hex r hr q hq
        refine ⟨[], a, rest, pa, rfl, hpa, ?_, ?_, ?_⟩
        · rw [hhead]
          exact maxFold_noUpdate rest a pa hpa hle hsome'
        · intro r hr; cases hr
        · intro r hr q hq
          rcases List.mem_cons.mp hr with rfl | hr'
          · rw [hpa] at hq; injection hq with h; exact h ▸ le_refl pa
          · exact hle r hr' q hq

/-- C1, amended: for every list of data rows in which no row can
poison the selection (every row whose power field parses also has
integer-parseable fields 2, 3, 4 — the counterexample's row violates
this), every row with more than 6 fields has a parseable power (else
the web variant aborts), and at least one parseable power lies above
the standalone loop's `-999.0` sentinel, both variants return the
observation built from the first row attaining the numerically maximal
power — ties resolved by first occurrence. -/
theorem selectStrongest_stable_max :
    ∀ rows : List (List String),
      rowsSane rows = true →
      rowsAppSafe rows = true →
      rows.any rowGood = true →
      ∃ pre row suf p,
        rows = pre ++ row :: suf
        ∧ rowPower row = some p ∧ -999 < p
        ∧ selectStrongest rows = mkObs? row p
        ∧ (mkObs? row p).isSome = true
        ∧ (∀ r ∈ pre, ∀ q, rowPower r = some q → q < p)
        ∧ (∀ r ∈ rows, ∀ q, rowPower r = some q → q ≤ p)
        ∧ selectStrongest_app rows = .ok (selectStrongest rows) := by
  intro rows hsane happ hgood
  have hsane' : ∀ r ∈ rows, (rowPower r).isSome = true → wellFormedRow r = true := by
    intro r hr hp
    have h := List.all_eq_true.mp hsane r hr
    rcases Bool.or_eq_true_iff.mp h with h1 | h1
    · rw [Option.isNone_iff_eq_none] at h1
      rw [h1] at hp
      cases hp
    · exact h1
  have hgood' : ∃ r ∈ rows, ∃ q, rowPower r = some q ∧ (-999 : Rat) < q := by
    obtain ⟨r, hr, hg⟩ := List.any_eq_true.mp hgood
    refine ⟨r, hr, ?_⟩
    unfold rowGood at hg
    cases hp : rowPower r with
    | none => rw [hp] at hg; cases hg
    | some q => rw [hp] at hg; exact ⟨q, rfl, of_decide_eq_true hg⟩
  obtain ⟨pre, row, suf, p, hsplit, hpow, hmp, hwf, hfold, hpre, hall⟩ :=
    scanFold_spec rows none (-999) hsane' hgood'
  have hall' : ∀ r ∈ rows, ∀ q, rowPower r = some q → q ≤ p := by
    intro r hr
    exact hall r (hsplit ▸ hr)
  have hsel : selectStrongest rows = mkObs? row p := by
    unfold selectStrongest
    rw [hfold]
  -- the web variant agrees
  have hcand_mem : ∀ r ∈ rows.filter (fun r => decide (6 < r.length)),
      (rowPower r).isSome = true := by
    intro r hr
    obtain ⟨hrr, hlen⟩ := List.mem_filter.mp hr
    have h2 := List.all_eq_true.mp happ r hrr
    rcases Bool.or_eq_true_iff.mp h2 with h1 | h1
    · have := of_decide_eq_true h1
      have := of_decide_eq_true hlen
      omega
    · exact h1
  have hrow_len : 6 < row.length := rowPower_length hpow
  have hrow_mem_rows : row ∈ rows := by
    rw [hsplit]
    exact List.mem_append.mpr (Or.inr (List.mem_cons_self _ _))
  have hrow_cand : row ∈ rows.filter (fun r => decide (6 < r.length)) :=
    List.mem_filter.mpr ⟨hrow_mem_rows, decide_eq_true hrow_len⟩
  obtain ⟨preC, b, sufC, pb, hsplitC, hpowb, hmaxC, hpreC, hallC⟩ :=
    maxRow_spec _ hcand_mem (List.ne_nil_of_mem hrow_cand)
  have hb_cand : b ∈ rows.filter (fun r => decide (6 < r.length)) := by
    rw [hsplitC]
    exact List.mem_append.mpr (Or.inr (List.mem_cons_self _ _))
  have hpb_le : pb ≤ p := hall' b (List.mem_filter.mp hb_cand).1 pb hpowb
  have hp_le : p ≤ pb := hallC row hrow_cand p hpow
  have hpp : pb = p := le_antisymm hpb_le hp_le
  have hfilt : rows.filter (fun r => decide (6 < r.length))
      = pre.filter (fun r => decide (6 < r.length))
        ++ row :: suf.filter (fun r => decide (6 < r.length)) := by
    rw [hsplit, List.filter_append, List.filter_cons]
    simp [hrow_len]
  have hb_eq : b = row := by
    have hcc : preC ++ b :: sufC
        = pre.filter (fun r => decide (6 < r.length))
          ++ row :: suf.filter (fun r => decide (6 < r.length)) :=
      hsplitC.symm.trans hfilt
    have tri := lt_trichotomy preC.length
      (pre.filter (fun r => decide (6 < r.length))).length
    rcases tri with hlt | heq | hgt
    · -- then b would sit inside the strict-prefix of smaller keys
      exfalso
      have h1 : (preC ++ b :: sufC).get? preC.length = some b := by
        rw [List.get?_append_right (le_refl _)]
        simp
      have h2 : (preC ++ b :: sufC).get? preC.length
          = (pre.filter (fun r => decide (6 < r.length))).get? preC.length := by
        rw [hcc, List.get?_append hlt]
      have hb_pre : b ∈ pre.filter (fun r => decide (6 < r.length)) :=
        List.get?_mem (h2.symm.trans h1)
      have : pb < p := hpre b (List.mem_filter.mp hb_pre).1 pb hpowb
      exact absurd (hpp ▸ this) (lt_irrefl p)
    · exact (List.cons_eq_cons.mp (List.append_inj hcc heq).2).1
    · exfalso
      have h1 : (preC ++ b :: sufC).get?
          (pre.filter (fun r => decide (6 < r.length))).length = some row := by
        rw [hcc, List.get?_append_right (le_refl _)]
        simp
      have h2 : (preC ++ b :: sufC).get?
          (pre.filter (fun r => decide (6 < r.length))).length
          = preC.get? (pre.filter (fun r => decide (6 < r.length))).length := by
        rw [List.get?_append hgt]
      have hrow_preC : row ∈ preC := List.get?_mem (h2.symm.trans h1)
      have : p < pb := hpreC row hrow_preC p hpow
      exact absurd (hpp ▸ this) (lt_irrefl pb)
  have happ_eq : selectStrongest_app rows = .ok (selectStrongest rows) := by
    have hany : (rows.filter (fun r => decide (6 < r.length))).any
        (fun r => (rowPower r).isNone) = false := by
      cases h : (rows.filter (fun r => decide (6 < r.length))).any
          (fun r => (rowPower r).isNone) with
      | false => rfl
      | true =>
          exfalso
          obtain ⟨r, hr, hn⟩ := List.any_eq_true.mp h
          have hs := hcand_mem r hr
          rw [Option.isNone_iff_eq_none.mp hn] at hs
          cases hs
    obtain ⟨obs, hobs⟩ := Option.isSome_iff_exists.mp (mkObs_isSome row p hwf)
    rw [hb_eq] at hmaxC
    unfold selectStrongest_app
    simp only [hany, Bool.false_eq_true, if_false]
    simp only [hmaxC, hpow, hobs, hsel]
  exact ⟨pre, row, suf, p, hsplit, hpow, hmp, hsel, mkObs_isSome row p hwf,
    hpre, hall', happ_eq⟩

/-- C1, witness: the spec's own example row. -/
theorem selectStrongest_stable_max_witness :
    ∃ pre row suf p,
      [["2024-01-01", "00:00:00", "100000000", "100100000", "100000", "131072", "-20.5"]]
        = pre ++ row :: suf
      ∧ rowPower row = some p ∧ -999 < p
      ∧ selectStrongest
          [["2024-01-01", "00:00:00", "100000000", "100100000", "100000", "131072", "-20.5"]]
          = mkObs? row p
      ∧ (mkObs? row p).isSome = true
      ∧ (∀ r ∈ ([] : List (List String)).append pre, ∀ q, rowPower r = some q → q < p)
      ∧ (∀ r ∈ [["2024-01-01", "00:00:00", "100000000", "100100000", "100000", "131072",
            "-20.5"]], ∀ q : Rat, rowPower r = some q → q ≤ p)
      ∧ selectStrongest_app
          [["2024-01-01", "00:00:00", "100000000", "100100000", "100000", "131072", "-20.5"]]
          = .ok (selectStrongest
              [["2024-01-01", "00:00:00", "100000000", "100100000", "100000", "131072",
                "-20.5"]]) :=
  selectStrongest_stable_max
    [["2024-01-01", "00:00:00", "100000000", "100100000", "100000", "131072", "-20.5"]]
    (by with_unfolding_all rfl) (by with_unfolding_all rfl) (by with_unfolding_all rfl)

/-- The leading-boundary test shifts by one position when the scan
passes the head character. -/
theorem wwAtP_succ (prev : Option Char) (c : Char) (rest : List Char) (i : Nat) :
    wwAtP prev (c :: rest) (i + 1) = wwAtP (some c) rest i := by
  cases i with
  | zero => rfl
  | succ j => rfl

/-- On empty text no token occurs anywhere. -/
theorem wwAtP_nil (prev : Option Char) (i : Nat) :
    wwAtP prev ([] : List Char) i = false := by
  unfold wwAtP
  have h : (([] : List Char).drop i) = [] := by simp
  rw [h]
  have : tokensAt [] = none := rfl
  rw [this]
  simp

/-- Characterization of the left-to-right `re.search` scan: it returns
`none` exactly when no whole-word token occurs, and at the least
occurrence position it returns that occurrence's text upper-cased. -/
theorem findTokenFrom_spec :
    ∀ (cs : List Char) (prev : Option Char),
      (findTokenFrom prev cs = none ↔ ∀ i, wwAtP prev cs i = false)
      ∧ (∀ i, wwAtP prev cs i = true →
          (∀ j, j < i → wwAtP prev cs j = false) →
          findTokenFrom prev cs = some ((matchedTextAt cs i).map Char.toUpper)) := by
  intro cs
  induction cs with
  | nil =>
      intro prev
      constructor
      · exact ⟨fun _ i => wwAtP_nil prev i, fun _ => rfl⟩
      · intro i hw _
        rw [wwAtP_nil prev i] at hw
        cases hw
  | cons c rest ih =>
      intro prev
      by_cases hb : bOk prev = true
      · cases ht : tokensAt (c :: rest) with
        | some n =>
            have hww0 : wwAtP prev (c :: rest) 0 = true := by
              unfold wwAtP
              simp only [List.drop_zero]
              rw [ht, hb]
              rfl
            have hf : findTokenFrom prev (c :: rest)
                = some (((c :: rest).take n).map Char.toUpper) := by
              unfold findTokenFrom
              rw [hb]
              simp only [if_true, ht]
            constructor
            · constructor
              · intro h
                rw [hf] at h
                cases h
              · intro hall
                rw [hall 0] at hww0
                cases hww0
            · intro i hwi hmin
              cases i with
              | zero =>
                  rw [hf]
                  unfold matchedTextAt
                  simp only [List.drop_zero]
                  rw [ht]
                  rfl
              | succ k =>
                  have := hmin 0 (Nat.succ_pos k)
                  rw [hww0] at this
                  cases this
        | none =>
            have hww0 : wwAtP prev (c :: rest) 0 = false := by
              unfold wwAtP
              simp only [List.drop_zero]
              rw [ht]
              simp
            have hf : findTokenFrom prev (c :: rest) = findTokenFrom (some c) rest := by
              unfold findTokenFrom
              rw [hb]
              simp only [if_true, ht]
              cases rest <;> rfl
            constructor
            · rw [hf, (ih (some c)).1]
              constructor
              · intro h i
                cases i with
                | zero => exact hww0
                | succ j => rw [wwAtP_succ]; exact h j
              · intro h i
                rw [← wwAtP_succ prev c rest i]
                exact h (i + 1)
            · intro i hwi hmin
              cases i with
              | zero =>
                  rw [hww0] at hwi
                  cases hwi
              | succ k =>
                  rw [wwAtP_succ] at hwi
                  have hmin' : ∀ j, j < k → wwAtP (some c) rest j = false := by
                    intro j hj
                    rw [← wwAtP_succ prev c rest j]
                    exact hmin (j + 1) (Nat.succ_lt_succ hj)
                  rw [hf]
                  exact (ih (some c)).2 k hwi hmin'
      · have hbf : bOk prev = false := Bool.not_eq_true _ ▸ hb
        have hww0 : wwAtP prev (c :: rest) 0 = false := by
          unfold wwAtP
          rw [hbf]
          simp
        have hf : findTokenFrom prev (c :: rest) = findTokenFrom (some c) rest := by
          unfold findTokenFrom
          rw [hbf]
          simp only [Bool.false_eq_true, if_false]
          cases rest <;> rfl
        constructor
        · rw [hf, (ih (some c)).1]
          constructor
          · intro h i
            cases i with
            | zero => exact hww0
            | succ j => rw [wwAtP_succ]; exact h j
          · intro h i
            rw [← wwAtP_succ prev c rest i]
            exact h (i + 1)
        · intro i hwi hmin
          cases i with
          | zero =>
              rw [hww0] at hwi
              cases hwi
          | succ k =>
              rw [wwAtP_succ] at hwi
              have hmin' : ∀ j, j < k → wwAtP (some c) rest j = false := by
                intro j hj
                rw [← wwAtP_succ prev c rest j]
                exact hmin (j + 1) (Nat.succ_lt_succ hj)
              rw [hf]
              exact (ih (some c)).2 k hwi hmin'

/-- A successful alternation match reports the length of one of the
offered tokens. -/
theorem tokensAtGo_mem :
    ∀ (ts : List String) (cs : List Char) (n : Nat),
      tokensAtGo ts cs = some n → ∃ t ∈ ts, n = t.data.length := by
  intro ts
  induction ts with
  | nil => intro cs n h; cases h
  | cons t ts ih =>
      intro cs n h
      unfold tokensAtGo at h
      cases hm : matchCI t.data cs with
      | some after =>
          simp only [hm] at h
          by_cases hr : restBoundary after = true
          · rw [if_pos hr] at h
            injection h with h'
            exact ⟨t, List.mem_cons_self _ _, h'.symm⟩
          · rw [if_neg hr] at h
            obtain ⟨t', ht', hn⟩ := ih cs n h
            exact ⟨t', List.mem_cons_of_mem _ ht', hn⟩
      | none =>
          simp only [hm] at h
          obtain ⟨t', ht', hn⟩ := ih cs n h
          exact ⟨t', List.mem_cons_of_mem _ ht', hn⟩

/-- Every modulation token is at most three characters long, so a
matched token's length is at most three. -/
theorem tokensAt_le_three (cs : List Char) (n : Nat) (h : tokensAt cs = some n) :
    n ≤ 3 := by
  obtain ⟨t, ht, hn⟩ := tokensAtGo_mem modTokens cs n h
  subst hn
  fin_cases ht <;> decide

/-- C7: `_extract_modulation` maps the spec's two examples to `"NFM"`
and `"Unknown"`; in general it returns `"Unknown"` exactly when no
token of the fixed set occurs as a whole word (case-insensitively), and
at the first whole-word occurrence it returns that occurrence's text
upper-cased. -/
theorem extract_modulation_spec :
    extract_modulation "likely an NFM voice channel" = "NFM"
    ∧ extract_modulation "unclear signal type" = "Unknown"
    ∧ ∀ s : String,
        (extract_modulation s = "Unknown" ↔ ∀ i, wwAtP none s.data i = false)
        ∧ (∀ i, wwAtP none s.data i = true →
            (∀ j, j < i → wwAtP none s.data j = false) →
            extract_modulation s
              = String.mk ((matchedTextAt s.data i).map Char.toUpper)) := by
  refine ⟨by with_unfolding_all rfl, by with_unfolding_all rfl, ?_⟩
  intro s
  have hspec := findTokenFrom_spec s.data none
  constructor
  · constructor
    · intro h
      by_contra hnall
      push_neg at hnall
      obtain ⟨i₀, hi₀⟩ := hnall
      have hex : ∃ i, wwAtP none s.data i = true := by
        refine ⟨i₀, ?_⟩
        cases hww : wwAtP none s.data i₀ with
        | false => exact absurd hww hi₀
        | true => rfl
      classical
      have hk : wwAtP none s.data (Nat.find hex) = true := Nat.find_spec hex
      have hmin : ∀ j, j < Nat.find hex → wwAtP none s.data j = false := by
        intro j hj
        cases hww : wwAtP none s.data j with
        | false => rfl
        | true => exact absurd hww (Nat.find_min hex hj)
      have heq := hspec.2 (Nat.find hex) hk hmin
      have h' : String.mk ((matchedTextAt s.data (Nat.find hex)).map Char.toUpper)
          = "Unknown" := by
        rw [← h]
        unfold extract_modulation
        rw [heq]
      have hdata : ((matchedTextAt s.data (Nat.find hex)).map Char.toUpper)
          = "Unknown".data := congrArg String.data h'
      have hlen : ((matchedTextAt s.data (Nat.find hex)).map Char.toUpper).length ≤ 3 := by
        unfold wwAtP at hk
        obtain ⟨-, hsome⟩ := Bool.and_eq_true_iff.mp hk
        obtain ⟨n, hn⟩ := Option.isSome_iff_exists.mp hsome
        have hbound := tokensAt_le_three _ n hn
        unfold matchedTextAt
        rw [hn]
        simp only [Option.getD_some, List.length_map]
        exact le_trans (List.length_take_le _ _) hbound
      rw [hdata] at hlen
      have h7 : ("Unknown".data).length = 7 := by decide
      rw [h7] at hlen
      omega
    · intro hall
      unfold extract_modulation
      rw [hspec.1.mpr hall]
  · intro i hwi hmin
    unfold extract_modulation
    rw [hspec.2 i hwi hmin]

/-- C7, witness: the whole word `NFM` occurs first at position 10 of
the spec's example description. -/
theorem extract_modulation_spec_witness :
    extract_modulation "likely an NFM voice channel"
      = String.mk
          ((matchedTextAt ("likely an NFM voice channel").data 10).map Char.toUpper) :=
  (extract_modulation_spec.2.2 "likely an NFM voice channel").2 10
    (by decide) (by decide)

end SentinelaRF
